import Mathlib

/-!
Verification development for the rate-confirmation extraction pipeline of
`src/api/parse-rateconf.js`.  The handler's pure parsing logic (lines 117-163
of the delimited-text handler, and lines 277-308 of the structured-shape
handler) is embedded shallowly: JavaScript strings become `List Char`,
JavaScript numbers become an explicit `JSNum` type (NaN, signed infinities,
and finite values modelled as exact rationals -- IEEE-754 rounding of doubles
is idealised away; every concrete value appearing in the claims is exactly
representable), and the two regular expressions
`/CSV LINE:\s*\n?(.+)/i` and `/INVOICE EMAIL:\s*\n?(.+)/i` are modelled by an
explicit backtracking matcher with JavaScript's leftmost-match semantics.
-/

set_option maxRecDepth 4000
set_option maxHeartbeats 1000000

/-- ASCII lower-casing, modelling what the `/i` regex flag does to the
label characters (all of which are ASCII). -/
def lowerChar (c : Char) : Char :=
  match c with
  | 'A' => 'a'
  | 'B' => 'b'
  | 'C' => 'c'
  | 'D' => 'd'
  | 'E' => 'e'
  | 'F' => 'f'
  | 'G' => 'g'
  | 'H' => 'h'
  | 'I' => 'i'
  | 'J' => 'j'
  | 'K' => 'k'
  | 'L' => 'l'
  | 'M' => 'm'
  | 'N' => 'n'
  | 'O' => 'o'
  | 'P' => 'p'
  | 'Q' => 'q'
  | 'R' => 'r'
  | 'S' => 's'
  | 'T' => 't'
  | 'U' => 'u'
  | 'V' => 'v'
  | 'W' => 'w'
  | 'X' => 'x'
  | 'Y' => 'y'
  | 'Z' => 'z'
  | c => c

/-- JavaScript whitespace (`\s` in a regex, and what `String.prototype.trim`
removes): the ASCII whitespace characters plus NBSP.  The remaining exotic
Unicode space characters are omitted; none occur in the claims. -/
def isWsJS (c : Char) : Bool :=
  c = ' ' || c = '\t' || c = '\n' || c = '\r' || c = '\x0b' || c = '\x0c' || c = '\u00A0'

/-- JavaScript `String.prototype.trim`: strip whitespace from both ends. -/
def trimJS (l : List Char) : List Char :=
  List.rdropWhile isWsJS (l.dropWhile isWsJS)

/-- Case-insensitive prefix test: does the text (second argument) start with
the pattern (first argument, stored lower-case)? -/
def startsWithCI : List Char → List Char → Bool
  | [], _ => true
  | _ :: _, [] => false
  | p :: ps, c :: cs => if lowerChar c = p then startsWithCI ps cs else false

/-- Case-insensitive substring test (used to state "the label occurs
nowhere in the response"). -/
def containsCI (pat : List Char) : List Char → Bool
  | [] => startsWithCI pat []
  | c :: rest => startsWithCI pat (c :: rest) || containsCI pat rest

/-- The regex fragment `(.+)`: requires at least one character that is not a
newline (JavaScript `.` without the `s` flag) and greedily captures to the
end of the line. -/
def dotPlusAt (t : List Char) : Option (List Char) :=
  match t with
  | [] => none
  | c :: r => if c = '\n' then none else some (c :: r.takeWhile (fun d => d ≠ '\n'))

/-- The regex fragment `\s*\n?(.+)` with the engine's greedy backtracking:
`\s*` consumes as much whitespace as possible, giving characters back (and
letting the optional `\n` fire) only if `(.+)` cannot otherwise start. -/
def tailMatch : List Char → Option (List Char)
  | [] => none
  | c :: r =>
    if isWsJS c then
      match tailMatch r with
      | some cap => some cap
      | none => if c = '\n' then dotPlusAt r else dotPlusAt (c :: r)
    else dotPlusAt (c :: r)

/-- JavaScript `text.match(/LABEL\s*\n?(.+)/i)`: scan left to right for the
first position where the whole pattern matches, and return the capture
group.  The pattern is passed lower-cased. -/
def findLabelMatch (label : List Char) : List Char → Option (List Char)
  | [] => none
  | c :: rest =>
    if startsWithCI label (c :: rest) then
      match tailMatch ((c :: rest).drop label.length) with
      | some cap => some cap
      | none => findLabelMatch label rest
    else findLabelMatch label rest

/-- The data-line label of the regex on line 117, lower-cased. -/
def csvLabel : List Char := ("csv line:").data

/-- The invoice-email label of the regex on line 118, lower-cased. -/
def emailLabel : List Char := ("invoice email:").data

/-- A JavaScript number as produced and consumed by the numeric code paths:
NaN, a signed infinity, or a finite value (modelled as an exact rational). -/
inductive JSNum where
  | nan : JSNum
  | inf : Bool → JSNum
  | fin : ℚ → JSNum
deriving DecidableEq

/-- JavaScript truthiness of a number: NaN and 0 are falsy. (`ℚ` has no
negative zero; `-0` is falsy in JavaScript and `0 : ℚ` covers it.) -/
def jsTruthy : JSNum → Bool
  | .nan => false
  | .inf _ => true
  | .fin q => if q = 0 then false else true

/-- The idiom `x || 0` applied to a number. -/
def orZero (n : JSNum) : JSNum :=
  if jsTruthy n then n else .fin 0

/-- The test `x > 0` on a JavaScript number. -/
def jsGt0 : JSNum → Bool
  | .nan => false
  | .inf b => b
  | .fin q => decide (0 < q)

/-- Negation of a JavaScript number. -/
def jsNegNum : JSNum → JSNum
  | .nan => .nan
  | .inf b => .inf (! b)
  | .fin q => .fin (-q)

/-- JavaScript division.  The sign attached to a zero divisor cannot be
represented in `ℚ` (no negative zero); the zero-divisor branches are
unreachable in the pipeline, which divides only under a `> 0` guard. -/
def jsDiv : JSNum → JSNum → JSNum
  | .nan, _ => .nan
  | _, .nan => .nan
  | .inf _, .inf _ => .nan
  | .inf a, .fin q => if q = 0 then .inf a else .inf (a = decide (0 < q))
  | .fin _, .inf _ => .fin 0
  | .fin a, .fin b =>
    if b = 0 then (if a = 0 then .nan else .inf (decide (0 < a)))
    else .fin (a / b)

/-- Value of a digit string read in base 10. -/
def digitsToNat (ds : List Char) : ℕ :=
  ds.foldl (fun a c => 10 * a + (c.toNat - 48)) 0

/-- Exponent digits after `e`/`E` with an optional sign; if no digits
follow, the exponent part is not part of the literal and contributes 0. -/
def expPart (u : List Char) : ℤ :=
  match u with
  | '+' :: v => if v.takeWhile Char.isDigit = [] then 0 else (digitsToNat (v.takeWhile Char.isDigit) : ℤ)
  | '-' :: v => if v.takeWhile Char.isDigit = [] then 0 else -(digitsToNat (v.takeWhile Char.isDigit) : ℤ)
  | v => if v.takeWhile Char.isDigit = [] then 0 else (digitsToNat (v.takeWhile Char.isDigit) : ℤ)

/-- JavaScript `parseFloat`: skip leading whitespace, then read the longest
prefix that is a `StrDecimalLiteral` (optional sign; `Infinity`; digits with
optional fraction; optional exponent -- an `e` not followed by digits is
ignored).  No valid prefix gives NaN. -/
def parseUnsignedFloat (r : List Char) : JSNum :=
  if ("Infinity").data.isPrefixOf r then .inf true
  else
    let ip := r.takeWhile Char.isDigit
    let r1 := r.dropWhile Char.isDigit
    let fp := match r1 with
      | '.' :: u => u.takeWhile Char.isDigit
      | _ => []
    let r2 := match r1 with
      | '.' :: u => u.dropWhile Char.isDigit
      | _ => r1
    if ip = [] ∧ fp = [] then .nan
    else
      let e : ℤ := match r2 with
        | 'e' :: u => expPart u
        | 'E' :: u => expPart u
        | _ => 0
      let base : ℚ := (digitsToNat ip : ℚ) + (digitsToNat fp : ℚ) / (10 : ℚ) ^ fp.length
      .fin (base * (10 : ℚ) ^ e)

/-- JavaScript `parseFloat` on a string. -/
def jsParseFloat (s : List Char) : JSNum :=
  match s.dropWhile isWsJS with
  | '-' :: r => jsNegNum (parseUnsignedFloat r)
  | '+' :: r => parseUnsignedFloat r
  | r => parseUnsignedFloat r

/-- Decimal digit character for a value below 10. -/
def digitChar (n : ℕ) : Char := Char.ofNat (48 + n)

/-- Decimal digits of a natural number (fuel-driven; the fuel `n + 1`
always suffices). -/
def natCharsAux : ℕ → ℕ → List Char
  | 0, _ => []
  | fuel + 1, n =>
    if n < 10 then [digitChar n]
    else natCharsAux fuel (n / 10) ++ [digitChar (n % 10)]

/-- Decimal representation of a natural number. -/
def natChars (n : ℕ) : List Char := natCharsAux (n + 1) n

/-- Two-digit zero-padded decimal representation (for the cents part). -/
def pad2 (n : ℕ) : List Char :=
  if n < 10 then '0' :: natChars n else natChars n

/-- Body of `toFixed(2)` for a non-negative finite value: the ECMA-262 rule
picks the integer n with n/100 closest to the value, ties towards the larger
n, and prints n with two decimals. -/
def fixedCore (q : ℚ) : List Char :=
  let m : ℕ := (⌊q * 100 + 1 / 2⌋).toNat
  natChars (m / 100) ++ '.' :: pad2 (m % 100)

/-- JavaScript `Number.prototype.toFixed(2)`.  (The ECMA branch that falls
back to `ToString` for magnitudes of 10^21 and above is not modelled; such
magnitudes do not arise in the claims.) -/
def jsToFixed2 : JSNum → List Char
  | .nan => ("NaN").data
  | .inf true => ("Infinity").data
  | .inf false => ("-Infinity").data
  | .fin q => if q < 0 then '-' :: fixedCore (-q) else fixedCore q

/-- JavaScript `String.prototype.split(',')`: split on every comma; the
result is never empty and empty segments are kept. -/
def splitComma : List Char → List (List Char)
  | [] => [[]]
  | c :: r =>
    if c = ',' then [] :: splitComma r
    else
      match splitComma r with
      | [] => [[c]]
      | f :: rest => (c :: f) :: rest

/-- The structured record built on lines 133-150: sixteen positional fields;
text positions default to the empty string, numeric positions go through
`parseFloat(...) || 0`. -/
structure LoadData where
  id : List Char
  pickup_date : List Char
  delivery_date : List Char
  broker_company : List Char
  contact : List Char
  phone : List Char
  extension : List Char
  email : List Char
  origin : List Char
  destination : List Char
  equipment : List Char
  miles : JSNum
  posted_rate : JSNum
  booked_rate : JSNum
  shipper : List Char
  receiver : List Char
deriving DecidableEq

/-- The idiom `fields[i] || ''` on the (already trimmed) field list:
an absent position and an empty string both give the empty string. -/
def strField (fields : List (List Char)) (i : ℕ) : List Char :=
  fields.getD i []

/-- The idiom `parseFloat(fields[i]) || 0`: an absent position makes
`parseFloat` see `undefined` (hence NaN), and `|| 0` turns NaN into 0. -/
def numField (fields : List (List Char)) (i : ℕ) : JSNum :=
  match fields.get? i with
  | none => orZero .nan
  | some s => orZero (jsParseFloat s)

/-- Lines 133-150: assemble the record from the positional fields. -/
def mkLoadData (fields : List (List Char)) : LoadData where
  id := strField fields 0
  pickup_date := strField fields 1
  delivery_date := strField fields 2
  broker_company := strField fields 3
  contact := strField fields 4
  phone := strField fields 5
  extension := strField fields 6
  email := strField fields 7
  origin := strField fields 8
  destination := strField fields 9
  equipment := strField fields 10
  miles := numField fields 11
  posted_rate := numField fields 12
  booked_rate := numField fields 13
  shipper := strField fields 14
  receiver := strField fields 15

/-- Lines 152-156: the rate-per-mile is computed only when both miles and
booked rate are `> 0`, and is `null` (here: `none`) otherwise. -/
def calcRpm (miles booked_rate : JSNum) : Option (List Char) :=
  if jsGt0 miles && jsGt0 booked_rate then some (jsToFixed2 (jsDiv booked_rate miles))
  else none

/-- The JSON body returned on line 158-163 (field `success` is the literal
`true` of the source). -/
structure SuccessBody where
  success : Bool
  data : LoadData
  csvLine : List Char
  rpm : Option (List Char)
deriving DecidableEq

/-- Outcome of the response-parsing section (lines 117-163): either the 422
`Could not extract data from PDF` body, which carries the raw model response
verbatim, or the 200 success body. -/
inductive ParseResult where
  | malformed : List Char → ParseResult
  | ok : SuccessBody → ParseResult
deriving DecidableEq

/-- Lines 117-163 of the delimited-text handler: extract the data line with
the `CSV LINE` regex, fail with the 422 body when the match is missing or
trims to the empty string (both falsy in `if (!csvLine)`), otherwise split
on commas, trim each field, build the record and the rate-per-mile. -/
def parseResponse (aiResponse : List Char) : ParseResult :=
  match (findLabelMatch csvLabel aiResponse).map trimJS with
  | none => .malformed aiResponse
  | some l =>
    if l = [] then .malformed aiResponse
    else
      let fields := (splitComma l).map trimJS
      let d := mkLoadData fields
      .ok ⟨true, d, l, calcRpm d.miles d.booked_rate⟩

/-- Line 118/121: the invoice email is extracted with the second regex and
trimmed; it is computed but never placed in the response body. -/
def extractInvoiceEmail (aiResponse : List Char) : Option (List Char) :=
  (findLabelMatch emailLabel aiResponse).map trimJS

/-- A delimited-text model response in the shape the instruction contract
requests: the two labelled blocks separated by a blank line. -/
def mkResponse (line email : List Char) : List Char :=
  ("CSV LINE:").data ++ ('\n' :: (line ++ ((("\n\nINVOICE EMAIL:\n").data) ++ email)))

/-- The concrete data line of the end-to-end scenario of spec §8.6. -/
def sampleLine : List Char :=
  ("LD100,2025-11-21,2025-11-24,Acme Brokers,Jane Doe,555-1212,,jane@acme.com,Johnston SC,Dallas TX,R,800,0,2000,Acme Shipper,Acme Receiver").data

/-- The concrete end-to-end response text of spec §8.6. -/
def sampleResponse : List Char :=
  mkResponse sampleLine (("billing@acme.com").data)

/-- The record that spec §8.6 expects for `sampleResponse`. -/
def sampleRecord : LoadData where
  id := ("LD100").data
  pickup_date := ("2025-11-21").data
  delivery_date := ("2025-11-24").data
  broker_company := ("Acme Brokers").data
  contact := ("Jane Doe").data
  phone := ("555-1212").data
  extension := []
  email := ("jane@acme.com").data
  origin := ("Johnston SC").data
  destination := ("Dallas TX").data
  equipment := ("R").data
  miles := .fin 800
  posted_rate := .fin 0
  booked_rate := .fin 2000
  shipper := ("Acme Shipper").data
  receiver := ("Acme Receiver").data

/-- Outcome of the request-validation part of a handler, before and up to
the model call: auth failure (401), missing document payload (400
`No PDF data provided`), or proceeding to `anthropic.messages.create`. -/
inductive GateResult where
  | authError : GateResult
  | invalidInput : GateResult
  | callModel : List Char → GateResult
deriving DecidableEq

/-- Lines 70-112 of the authenticated delimited-text handler: the token is
verified first (the verification itself is the external identity provider's
job, abstracted to a boolean), then `if (!pdfBase64)` rejects a missing or
empty payload with 400 before any model call. -/
def handler1Gate (authOk : Bool) (pdfBase64 : Option (List Char)) : GateResult :=
  if authOk = false then .authError
  else
    match pdfBase64 with
    | none => .invalidInput
    | some p => if p = [] then .invalidInput else .callModel p

/-- Lines 379-395 of the password-gated handler: `password !== APP_PASSWORD`
is checked first (an absent password never equals the configured string),
then the same `if (!pdfBase64)` check runs before any model call. -/
def handler3Gate (password : Option (List Char)) (appPassword : List Char)
    (pdfBase64 : Option (List Char)) : GateResult :=
  if password ≠ some appPassword then .authError
  else
    match pdfBase64 with
    | none => .invalidInput
    | some p => if p = [] then .invalidInput else .callModel p

/-- The idiom `x || ''` on a string value. -/
def jsOrEmptyStr (l : List Char) : List Char :=
  if l = [] then [] else l

/-- What the pipeline does to a date position that is present in the data
line (lines 131 and 135-136): the field is trimmed by the
`.map(f => f.trim())` and then passed through `fields[i] || ''`.  No format
conversion is applied. -/
def dateNormalize (raw : List Char) : List Char :=
  jsOrEmptyStr (trimJS raw)

/-- Recogniser for the canonical date format of the instruction contract
(rule 2 of the system prompt: `YYYY-MM-DD`). -/
def isCanonicalDate (s : List Char) : Bool :=
  match s with
  | y1 :: y2 :: y3 :: y4 :: '-' :: m1 :: m2 :: '-' :: d1 :: d2 :: [] =>
    y1.isDigit && y2.isDigit && y3.isDigit && y4.isDigit &&
      m1.isDigit && m2.isDigit && d1.isDigit && d2.isDigit
  | _ => false

/-- JSON values, as produced by `JSON.parse`. -/
inductive Json where
  | null : Json
  | bool : Bool → Json
  | num : ℚ → Json
  | str : List Char → Json
  | arr : List Json → Json
  | obj : List (List Char × Json) → Json

/-- JSON whitespace (the only four characters the JSON grammar skips). -/
def isJsonWs (c : Char) : Bool :=
  c = ' ' || c = '\t' || c = '\n' || c = '\r'

/-- Skip JSON whitespace. -/
def skipWs (s : List Char) : List Char := s.dropWhile isJsonWs

/-- Value of a hexadecimal digit, if the character is one. -/
def hexVal (c : Char) : Option ℕ :=
  if c.isDigit then some (c.toNat - 48)
  else if 'a' ≤ c ∧ c ≤ 'f' then some (c.toNat - 87)
  else if 'A' ≤ c ∧ c ≤ 'F' then some (c.toNat - 55)
  else none

/-- JSON string body after the opening quote: literal characters from 0x20
up, plus the escape sequences of the JSON grammar.  Returns the decoded
characters and the remaining input after the closing quote.  (A `\u` escape
denoting a lone UTF-16 surrogate is outside `Char`'s scalar values and
decodes to NUL here; no claim involves one.) -/
def jpStringAux : ℕ → List Char → Option (List Char × List Char)
  | 0, _ => none
  | fuel + 1, s =>
    match s with
    | [] => none
    | '"' :: r => some ([], r)
    | '\\' :: rest =>
      match rest with
      | [] => none
      | e :: r =>
        match e with
        | '"' => (jpStringAux fuel r).map (fun p => ('"' :: p.1, p.2))
        | '\\' => (jpStringAux fuel r).map (fun p => ('\\' :: p.1, p.2))
        | '/' => (jpStringAux fuel r).map (fun p => ('/' :: p.1, p.2))
        | 'b' => (jpStringAux fuel r).map (fun p => ('\x08' :: p.1, p.2))
        | 'f' => (jpStringAux fuel r).map (fun p => ('\x0c' :: p.1, p.2))
        | 'n' => (jpStringAux fuel r).map (fun p => ('\n' :: p.1, p.2))
        | 'r' => (jpStringAux fuel r).map (fun p => ('\r' :: p.1, p.2))
        | 't' => (jpStringAux fuel r).map (fun p => ('\t' :: p.1, p.2))
        | 'u' =>
          match r with
          | h1 :: h2 :: h3 :: h4 :: r2 =>
            match hexVal h1, hexVal h2, hexVal h3, hexVal h4 with
            | some a, some b, some c, some d =>
              (jpStringAux fuel r2).map
                (fun p => (Char.ofNat (((a * 16 + b) * 16 + c) * 16 + d) :: p.1, p.2))
            | _, _, _, _ => none
          | _ => none
        | _ => none
    | c :: r =>
      if c.toNat < 32 then none
      else (jpStringAux fuel r).map (fun p => (c :: p.1, p.2))

/-- Exponent part of a JSON number (digits are mandatory). -/
def jpExponent (base : ℚ) (u : List Char) : Option (ℚ × List Char) :=
  let sgn : ℤ := match u with
    | '-' :: _ => -1
    | _ => 1
  let u1 := match u with
    | '-' :: v => v
    | '+' :: v => v
    | _ => u
  let ds := u1.takeWhile Char.isDigit
  if ds = [] then none
  else some (base * (10 : ℚ) ^ (sgn * (digitsToNat ds : ℤ)), u1.dropWhile Char.isDigit)

/-- JSON number: `-? (0 | [1-9][0-9]*) ('.' [0-9]+)? ([eE] [+-]? [0-9]+)?`.
Unlike `parseFloat`, a dangling `.` or exponent makes the whole parse fail. -/
def jpNumber (s : List Char) : Option (ℚ × List Char) :=
  let neg : Bool := match s with
    | '-' :: _ => true
    | _ => false
  let s1 := match s with
    | '-' :: r => r
    | _ => s
  let ip := s1.takeWhile Char.isDigit
  let r1 := s1.dropWhile Char.isDigit
  if ip = [] then none
  else if 2 ≤ ip.length ∧ ip.headD '1' = '0' then none
  else
    let step2 : Option (ℚ × List Char) :=
      match r1 with
      | '.' :: u =>
        let fp := u.takeWhile Char.isDigit
        if fp = [] then none
        else some ((digitsToNat ip : ℚ) + (digitsToNat fp : ℚ) / (10 : ℚ) ^ fp.length,
          u.dropWhile Char.isDigit)
      | _ => some ((digitsToNat ip : ℚ), r1)
    match step2 with
    | none => none
    | some (base, r2) =>
      let step3 : Option (ℚ × List Char) :=
        match r2 with
        | 'e' :: u => jpExponent base u
        | 'E' :: u => jpExponent base u
        | _ => some (base, r2)
      match step3 with
      | none => none
      | some (q, r3) => some (if neg then -q else q, r3)

mutual

/-- JSON value parser (fuel-driven; `'\x7b'` and `'\x7d'` are the brace
characters).  Returns the value and the remaining input. -/
def jpValue : ℕ → List Char → Option (Json × List Char)
  | 0, _ => none
  | fuel + 1, s =>
    match skipWs s with
    | [] => none
    | c :: r =>
      if c = '\x7b' then
        match skipWs r with
        | '\x7d' :: r2 => some (.obj [], r2)
        | _ => jpMembers fuel r []
      else if c = '[' then
        match skipWs r with
        | ']' :: r2 => some (.arr [], r2)
        | _ => jpElements fuel r []
      else if c = '"' then
        (jpStringAux (r.length + 1) r).map (fun p => (.str p.1, p.2))
      else if c = 't' then
        if ("rue").data.isPrefixOf r then some (.bool true, r.drop 3) else none
      else if c = 'f' then
        if ("alse").data.isPrefixOf r then some (.bool false, r.drop 4) else none
      else if c = 'n' then
        if ("ull").data.isPrefixOf r then some (.null, r.drop 3) else none
      else
        (jpNumber (c :: r)).map (fun p => (.num p.1, p.2))

/-- Object members after the opening brace (at least one member). -/
def jpMembers : ℕ → List Char → List (List Char × Json) →
    Option (Json × List Char)
  | 0, _, _ => none
  | fuel + 1, s, acc =>
    match skipWs s with
    | '"' :: r =>
      match jpStringAux (r.length + 1) r with
      | none => none
      | some (key, r2) =>
        match skipWs r2 with
        | ':' :: r3 =>
          match jpValue fuel r3 with
          | none => none
          | some (v, r4) =>
            match skipWs r4 with
            | ',' :: r5 => jpMembers fuel r5 (acc ++ [(key, v)])
            | '\x7d' :: r5 => some (.obj (acc ++ [(key, v)]), r5)
            | _ => none
        | _ => none
    | _ => none

/-- Array elements after the opening bracket (at least one element). -/
def jpElements : ℕ → List Char → List Json → Option (Json × List Char)
  | 0, _, _ => none
  | fuel + 1, s, acc =>
    match jpValue fuel s with
    | none => none
    | some (v, r) =>
      match skipWs r with
      | ',' :: r2 => jpElements fuel r2 (acc ++ [v])
      | ']' :: r2 => some (.arr (acc ++ [v]), r2)
      | _ => none

end

/-- `JSON.parse`: parse one JSON value and require only whitespace after it.
The fuel `2 * length + 8` is ample (nesting one level always consumes at
least one character). -/
def jsonParse (s : List Char) : Option Json :=
  match jpValue (2 * s.length + 8) s with
  | some (j, rest) => if skipWs rest = [] then some j else none
  | none => none

/-- JavaScript property access `loadData.key` as used on lines 289-304, for
a value that is not `null`: on an object the last binding for the key wins;
on any other non-null value the access evaluates to `undefined` (`none`).
Access on `null` throws a TypeError, so `structStage` takes its error
branch before any access and the `null` arm here is unreachable.  (None of
the record's key names collides with a built-in property such as
`length`.) -/
def jsGet : Json → List Char → Option Json
  | .obj kvs, k => kvs.foldl (fun acc kv => if kv.1 = k then some kv.2 else acc) none
  | _, _ => none

/-- JavaScript truthiness of a JSON value (NaN cannot come out of
`JSON.parse`). -/
def jsTruthyJson : Json → Bool
  | .null => false
  | .bool b => b
  | .num q => if q = 0 then false else true
  | .str s => if s = [] then false else true
  | .arr _ => true
  | .obj _ => true

/-- The idiom `loadData.key || null` of lines 289-304. -/
def orNullField (j : Json) (k : List Char) : Json :=
  match jsGet j k with
  | none => .null
  | some v => if jsTruthyJson v then v else .null

/-- The load record assembled on lines 287-308 of the structured-shape
handler.  `user_id` and `created_at` come from the auth context and the
clock and are not modelled; `status` is the literal `pending`. -/
structure StructLoadRecord where
  load_number : Json
  broker_name : Json
  broker_mc : Json
  rate : Json
  pickup_date : Json
  delivery_date : Json
  pickup_city : Json
  pickup_state : Json
  pickup_address : Json
  delivery_city : Json
  delivery_state : Json
  delivery_address : Json
  commodity : Json
  weight : Json
  miles : Json
  notes : Json
  source_file : Json
  status : List Char

/-- Lines 287-308: every field is `loadData.key || null`; `source_file` is
`fileName || null`. -/
def mkStructLoadRecord (j : Json) (fileName : Option (List Char)) : StructLoadRecord where
  load_number := orNullField j ("load_number").data
  broker_name := orNullField j ("broker_name").data
  broker_mc := orNullField j ("broker_mc").data
  rate := orNullField j ("rate").data
  pickup_date := orNullField j ("pickup_date").data
  delivery_date := orNullField j ("delivery_date").data
  pickup_city := orNullField j ("pickup_city").data
  pickup_state := orNullField j ("pickup_state").data
  pickup_address := orNullField j ("pickup_address").data
  delivery_city := orNullField j ("delivery_city").data
  delivery_state := orNullField j ("delivery_state").data
  delivery_address := orNullField j ("delivery_address").data
  commodity := orNullField j ("commodity").data
  weight := orNullField j ("weight").data
  miles := orNullField j ("miles").data
  notes := orNullField j ("notes").data
  source_file := match fileName with
    | none => .null
    | some f => if f = [] then .null else .str f
  status := ("pending").data

/-- Outcome of lines 277-308: the 500
`Failed to parse rate confirmation data` response (when `JSON.parse`
throws), the 500 `Failed to process rate confirmation` response (when the
parsed value is `null`, so the first property access on line 289 throws a
TypeError that the outer catch absorbs), or the assembled record that is
handed to storage. -/
inductive StructResult where
  | parseFailed : StructResult
  | typeError : StructResult
  | ok : StructLoadRecord → StructResult

/-- Lines 277-308 of the structured-shape handler:
`JSON.parse(response.content[0].text.trim())`, then the record assembly.
`JSON.parse` can return `null` (for the text `null`) but never `undefined`,
and property access on any other JSON value cannot throw, so the TypeError
path is exactly the `null` case.  No rate-per-mile is computed anywhere on
this path. -/
def structStage (aiText : List Char) (fileName : Option (List Char)) : StructResult :=
  match jsonParse (trimJS aiText) with
  | none => .parseFailed
  | some Json.null => .typeError
  | some j => .ok (mkStructLoadRecord j fileName)

/-- Apply a function to the head segment of a non-empty list of segments
(used to relate `splitComma` before and after a left trim). -/
def modHeadF (f : List Char → List Char) : List (List Char) → List (List Char)
  | [] => []
  | x :: xs => f x :: xs

/-- Apply a function to the last segment of a list of segments (used to
relate `splitComma` before and after a right trim). -/
def modLastF (f : List Char → List Char) : List (List Char) → List (List Char)
  | [] => []
  | [x] => [f x]
  | x :: xs => x :: modLastF f xs

/-! ### Helper lemmas -/

attribute [local semireducible] Rat.mul Rat.inv Rat.add Rat.sub

theorem orZero_ne_nan (n : JSNum) : orZero n ≠ JSNum.nan := by
  cases n with
  | nan => simp [orZero, jsTruthy]
  | inf b => simp [orZero, jsTruthy]
  | fin q =>
    by_cases h : q = 0 <;> simp [orZero, jsTruthy, h]

theorem digit_not_ws (c : Char) (h : c.isDigit = true) : isWsJS c = false := by
  simp only [isWsJS, Bool.or_eq_false_iff]
  refine ⟨⟨⟨⟨⟨⟨?_, ?_⟩, ?_⟩, ?_⟩, ?_⟩, ?_⟩, ?_⟩ <;>
    (apply decide_eq_false; intro e; subst e; exact absurd h (by decide))

theorem findLabelMatch_eq_none (label s : List Char)
    (h : containsCI label s = false) : findLabelMatch label s = none := by
  induction s with
  | nil => rfl
  | cons c rest ih =>
    rw [containsCI, Bool.or_eq_false_iff] at h
    rw [findLabelMatch, h.1]
    simp only [Bool.false_eq_true, if_false]
    exact ih h.2

/-! ### C2: rate-per-mile -/

/-- C2: for every pair of parsed miles and booked-rate values, the
rate-per-mile is present exactly when both are `> 0`; when present it is the
quotient booked/miles formatted with `toFixed(2)`, and when absent it is the
explicit `null` (`none`), not a zero value and not an error. -/
theorem c2_rate_per_mile :
    (∀ m b : JSNum,
      ((calcRpm m b).isSome ↔ (jsGt0 m = true ∧ jsGt0 b = true))
      ∧ (jsGt0 m = true → jsGt0 b = true →
          calcRpm m b = some (jsToFixed2 (jsDiv b m)))
      ∧ (¬(jsGt0 m = true ∧ jsGt0 b = true) → calcRpm m b = none))
    ∧ calcRpm (JSNum.fin 500) (JSNum.fin 1250) = some (("2.50").data)
    ∧ calcRpm (JSNum.fin 0) (JSNum.fin 1250) = none
    ∧ calcRpm (JSNum.fin 500) (JSNum.fin 0) = none := by
  refine ⟨fun m b => ?_, by decide, by decide, by decide⟩
  unfold calcRpm
  by_cases hm : jsGt0 m = true <;> by_cases hb : jsGt0 b = true <;>
    simp [hm, hb]

/-- Witness for C2 at miles 800 and booked rate 2000. -/
theorem c2_rate_per_mile_witness :
    calcRpm (JSNum.fin 800) (JSNum.fin 2000) =
      some (jsToFixed2 (jsDiv (JSNum.fin 2000) (JSNum.fin 800))) :=
  ((c2_rate_per_mile.1 (JSNum.fin 800) (JSNum.fin 2000)).2.1 (by decide) (by decide))

/-! ### C5: numeric positions -/

/-- C5 as stated is false on the code: a numeric position holding the string
`-5` parses to the negative value -5, because `parseFloat(f) || 0` keeps any
non-zero numeric result, negative ones included. -/
theorem c5_negative_counterexample :
    numField [("-5").data] 0 = JSNum.fin (-5) ∧ (-5 : ℚ) < 0 := by
  constructor
  · decide
  · norm_num

/-- C5 amended: a numeric position never holds NaN, and non-numeric or
absent input yields 0; but the value is not always non-negative -- a numeric
string with a leading minus sign passes through as a negative value. -/
theorem c5_numeric_fields_amended :
    (∀ (fields : List (List Char)) (i : ℕ),
      numField fields i ≠ JSNum.nan
      ∧ (fields.get? i = none → numField fields i = JSNum.fin 0)
      ∧ (∀ s, fields.get? i = some s → jsParseFloat s = JSNum.nan →
          numField fields i = JSNum.fin 0))
    ∧ numField [("-5").data] 0 = JSNum.fin (-5) := by
  refine ⟨fun fields i => ⟨?_, ?_, ?_⟩, by decide⟩
  · unfold numField
    cases h : fields.get? i with
    | none => exact orZero_ne_nan _
    | some s => exact orZero_ne_nan _
  · intro h
    unfold numField
    rw [h]
    rfl
  · intro s hs hnan
    unfold numField
    rw [hs]
    show orZero (jsParseFloat s) = JSNum.fin 0
    rw [hnan]
    rfl

/-- Witness for C5's amended statement on a concrete field list. -/
theorem c5_numeric_fields_witness :
    numField [("LD1").data] 1 = JSNum.fin 0 ∧ numField [("abc").data] 0 = JSNum.fin 0 :=
  ⟨(c5_numeric_fields_amended.1 [("LD1").data] 1).2.1 (by decide),
   (c5_numeric_fields_amended.1 [("abc").data] 0).2.2 (("abc").data) (by decide) (by decide)⟩

/-! ### C7: missing document payload -/

/-- C7: a request with no document payload (absent or empty `pdfBase64`)
never reaches the model call, and -- once the auth gate is passed -- is
reported as the 400 invalid-input failure, in both handlers. -/
theorem c7_missing_payload_no_model_call :
    ∀ (authOk : Bool) (password : Option (List Char)) (appPassword : List Char)
      (pdf : Option (List Char)), (pdf = none ∨ pdf = some []) →
      ((∀ p, handler1Gate authOk pdf ≠ GateResult.callModel p)
       ∧ (authOk = true → handler1Gate authOk pdf = GateResult.invalidInput)
       ∧ (∀ p, handler3Gate password appPassword pdf ≠ GateResult.callModel p)
       ∧ (password = some appPassword →
            handler3Gate password appPassword pdf = GateResult.invalidInput)) := by
  intro authOk password appPassword pdf h
  have step : ∀ pdf2 : Option (List Char), (pdf2 = none ∨ pdf2 = some []) →
      (match pdf2 with
        | none => GateResult.invalidInput
        | some p => if p = [] then GateResult.invalidInput else GateResult.callModel p) =
        GateResult.invalidInput := by
    intro pdf2 h2
    rcases h2 with h2 | h2 <;> subst h2 <;> rfl
  refine ⟨?_, ?_, ?_, ?_⟩
  · intro p
    unfold handler1Gate
    cases authOk with
    | false => simp
    | true =>
      simp only [Bool.true_eq_false, if_false]
      rw [step pdf h]
      simp
  · intro ha
    subst ha
    unfold handler1Gate
    simp only [Bool.true_eq_false, if_false]
    exact step pdf h
  · intro p
    unfold handler3Gate
    by_cases hp : password = some appPassword
    · simp only [hp, ne_eq, not_true_eq_false, if_false]
      rw [step pdf h]
      simp
    · simp [hp]
  · intro hp
    unfold handler3Gate
    simp only [hp, ne_eq, not_true_eq_false, if_false]
    exact step pdf h

/-- Witness for C7: missing payload after a passing auth gate. -/
theorem c7_missing_payload_witness :
    handler1Gate true none = GateResult.invalidInput ∧
      handler3Gate (some (("pw").data)) (("pw").data) (some []) = GateResult.invalidInput :=
  ⟨(c7_missing_payload_no_model_call true none [] none (Or.inl rfl)).2.1 rfl,
   (c7_missing_payload_no_model_call true (some (("pw").data)) (("pw").data) (some [])
      (Or.inr rfl)).2.2.2 rfl⟩

/-! ### C4: missing data-line label -/

/-- C4: when the data-line label occurs nowhere in the response (the empty
string included), parsing fails with the 422 malformed-extraction body
carrying the raw response verbatim, and no record is produced. -/
theorem c4_missing_label :
    ∀ s : List Char, containsCI csvLabel s = false →
      parseResponse s = ParseResult.malformed s ∧
        ∀ b, parseResponse s ≠ ParseResult.ok b := by
  intro s h
  have hf : findLabelMatch csvLabel s = none := findLabelMatch_eq_none csvLabel s h
  have hm : parseResponse s = ParseResult.malformed s := by
    unfold parseResponse
    rw [hf]
    rfl
  exact ⟨hm, fun b hb => by rw [hm] at hb; exact ParseResult.noConfusion hb⟩

/-- Witness for C4: the empty response and a label-free response. -/
theorem c4_missing_label_witness :
    parseResponse [] = ParseResult.malformed [] ∧
      parseResponse (("Sorry, no data here.").data) =
        ParseResult.malformed (("Sorry, no data here.").data) :=
  ⟨(c4_missing_label [] (by decide)).1,
   (c4_missing_label (("Sorry, no data here.").data) (by decide)).1⟩

/-! ### C3: short and long data lines -/

theorem strField_take16 (fields : List (List Char)) (i : ℕ) (h : i < 16) :
    strField (fields.take 16) i = strField fields i := by
  unfold strField List.getD
  rw [List.get?_take h]

theorem numField_take16 (fields : List (List Char)) (i : ℕ) (h : i < 16) :
    numField (fields.take 16) i = numField fields i := by
  unfold numField
  rw [List.get?_take h]

theorem strField_default (fields : List (List Char)) (i : ℕ)
    (h : fields.length ≤ i) : strField fields i = [] :=
  List.getD_eq_default _ _ h

theorem numField_default (fields : List (List Char)) (i : ℕ)
    (h : fields.length ≤ i) : numField fields i = JSNum.fin 0 := by
  unfold numField
  rw [List.get?_eq_none.mpr h]
  rfl

/-- C3: a data line with fewer than sixteen comma-separated values parses
without any exception: every absent text position defaults to the empty
string and every absent numeric position to 0; and positions beyond the
sixteenth are ignored (the record only depends on the first sixteen
fields).  (The embedding is total by construction, so no crash is
possible.) -/
theorem c3_short_and_long_lines :
    (∀ fields : List (List Char),
      (fields.length ≤ 0 → (mkLoadData fields).id = [])
      ∧ (fields.length ≤ 1 → (mkLoadData fields).pickup_date = [])
      ∧ (fields.length ≤ 2 → (mkLoadData fields).delivery_date = [])
      ∧ (fields.length ≤ 3 → (mkLoadData fields).broker_company = [])
      ∧ (fields.length ≤ 4 → (mkLoadData fields).contact = [])
      ∧ (fields.length ≤ 5 → (mkLoadData fields).phone = [])
      ∧ (fields.length ≤ 6 → (mkLoadData fields).extension = [])
      ∧ (fields.length ≤ 7 → (mkLoadData fields).email = [])
      ∧ (fields.length ≤ 8 → (mkLoadData fields).origin = [])
      ∧ (fields.length ≤ 9 → (mkLoadData fields).destination = [])
      ∧ (fields.length ≤ 10 → (mkLoadData fields).equipment = [])
      ∧ (fields.length ≤ 11 → (mkLoadData fields).miles = JSNum.fin 0)
      ∧ (fields.length ≤ 12 → (mkLoadData fields).posted_rate = JSNum.fin 0)
      ∧ (fields.length ≤ 13 → (mkLoadData fields).booked_rate = JSNum.fin 0)
      ∧ (fields.length ≤ 14 → (mkLoadData fields).shipper = [])
      ∧ (fields.length ≤ 15 → (mkLoadData fields).receiver = []))
    ∧ (∀ fields : List (List Char), mkLoadData fields = mkLoadData (fields.take 16)) := by
  constructor
  · intro fields
    refine ⟨fun h => ?_, fun h => ?_, fun h => ?_, fun h => ?_, fun h => ?_, fun h => ?_,
      fun h => ?_, fun h => ?_, fun h => ?_, fun h => ?_, fun h => ?_, fun h => ?_,
      fun h => ?_, fun h => ?_, fun h => ?_, fun h => ?_⟩ <;>
      first
        | exact strField_default fields _ h
        | exact numField_default fields _ h
  · intro fields
    unfold mkLoadData
    rw [strField_take16 fields 0 (by omega), strField_take16 fields 1 (by omega),
      strField_take16 fields 2 (by omega), strField_take16 fields 3 (by omega),
      strField_take16 fields 4 (by omega), strField_take16 fields 5 (by omega),
      strField_take16 fields 6 (by omega), strField_take16 fields 7 (by omega),
      strField_take16 fields 8 (by omega), strField_take16 fields 9 (by omega),
      strField_take16 fields 10 (by omega), numField_take16 fields 11 (by omega),
      numField_take16 fields 12 (by omega), numField_take16 fields 13 (by omega),
      strField_take16 fields 14 (by omega), strField_take16 fields 15 (by omega)]

/-- Witness for C3: a ten-value line has empty trailing text fields, zero
numeric fields, and appending extra values beyond the sixteenth changes
nothing. -/
theorem c3_short_and_long_lines_witness :
    (mkLoadData ((splitComma (("LD1,2025-11-21,2025-11-24,Acme,Jane,555,,j@a.com,A SC,B TX").data)).map trimJS)).miles = JSNum.fin 0
    ∧ (mkLoadData ((splitComma (("LD1,2025-11-21,2025-11-24,Acme,Jane,555,,j@a.com,A SC,B TX").data)).map trimJS)).receiver = []
    ∧ mkLoadData (List.replicate 20 (("x").data)) = mkLoadData ((List.replicate 20 (("x").data)).take 16) :=
  ⟨(c3_short_and_long_lines.1 _).2.2.2.2.2.2.2.2.2.2.2.1 (by decide),
   (c3_short_and_long_lines.1 _).2.2.2.2.2.2.2.2.2.2.2.2.2.2.2 (by decide),
   c3_short_and_long_lines.2 _⟩

/-! ### C9: date normalization on canonical input -/

/-- C9: the pipeline applies no format conversion to date positions, so a
date string already in the canonical `YYYY-MM-DD` output format passes
through unchanged. -/
theorem c9_date_normalization_identity :
    ∀ s : List Char, isCanonicalDate s = true → dateNormalize s = s := by
  intro s h
  unfold isCanonicalDate at h
  split at h
  case h_2 => exact absurd h (by simp)
  case h_1 y1 y2 y3 y4 m1 m2 d1 d2 =>
    simp only [Bool.and_eq_true] at h
    have hw1 : isWsJS y1 = false := digit_not_ws y1 h.1.1.1.1.1.1.1
    have hw2 : isWsJS d2 = false := digit_not_ws d2 h.2
    unfold dateNormalize trimJS
    have hdrop : List.dropWhile isWsJS
        (y1 :: y2 :: y3 :: y4 :: '-' :: m1 :: m2 :: '-' :: d1 :: d2 :: []) =
        y1 :: y2 :: y3 :: y4 :: '-' :: m1 :: m2 :: '-' :: d1 :: d2 :: [] := by
      simp [List.dropWhile_cons, hw1]
    rw [hdrop]
    have hr : List.rdropWhile isWsJS
        (y1 :: y2 :: y3 :: y4 :: '-' :: m1 :: m2 :: '-' :: d1 :: d2 :: []) =
        y1 :: y2 :: y3 :: y4 :: '-' :: m1 :: m2 :: '-' :: d1 :: d2 :: [] := by
      rw [List.rdropWhile_eq_self_iff]
      intro hl
      simp [List.getLast, hw2]
    rw [hr]
    unfold jsOrEmptyStr
    simp

/-- Witness for C9 at the concrete canonical date of spec §8.6. -/
theorem c9_date_normalization_witness :
    dateNormalize (("2025-11-21").data) = ("2025-11-21").data :=
  c9_date_normalization_identity (("2025-11-21").data) (by decide)

/-! ### C6: structured-shape responses -/

/-- A structured-shape response that is well-formed JSON but has no `rate`
key (braces written as `\x7b`/`\x7d`). -/
def c6SampleText : List Char := ("\x7b\"load_number\":\"L1\",\"miles\":100\x7d").data

/-- The parsed form of `c6SampleText`. -/
def c6SampleJson : Json :=
  Json.obj [((("load_number").data), Json.str (("L1").data)), ((("miles").data), Json.num 100)]

/-- The record the structured-shape handler builds from `c6SampleText`. -/
def c6SampleRecord : StructLoadRecord := mkStructLoadRecord c6SampleJson none

/-- C6 as stated is false on the code: a well-formed response lacking the
`rate` key does parse, but `rate` defaults to `null` (`loadData.rate || null`),
not to 0. -/
theorem c6_rate_null_counterexample :
    structStage c6SampleText none = StructResult.ok c6SampleRecord
    ∧ c6SampleRecord.rate = Json.null
    ∧ (c6SampleRecord.rate = Json.num 0 → False) := by
  refine ⟨rfl, rfl, fun h => ?_⟩
  rw [show c6SampleRecord.rate = Json.null from rfl] at h
  exact Json.noConfusion h

/-- C6 amended: a response that parses as well-formed JSON other than the
literal `null` but lacks the `rate` key still succeeds, with `rate`
defaulted to `null` (not 0); this code path computes no rate-per-mile at
all.  A response that `JSON.parse` rejects fails with the JSON-parse
error, and the response `null` makes the first property access throw a
TypeError, absorbed by the outer catch as the generic processing error. -/
theorem c6_structured_shape_amended :
    (∀ (s : List Char) (fileName : Option (List Char)) (j : Json),
      jsonParse (trimJS s) = some j → j ≠ Json.null →
      jsGet j (("rate").data) = none →
      structStage s fileName = StructResult.ok (mkStructLoadRecord j fileName)
      ∧ (mkStructLoadRecord j fileName).rate = Json.null)
    ∧ (∀ (s : List Char) (fileName : Option (List Char)),
      jsonParse (trimJS s) = none → structStage s fileName = StructResult.parseFailed)
    ∧ (∀ (s : List Char) (fileName : Option (List Char)),
      jsonParse (trimJS s) = some Json.null →
      structStage s fileName = StructResult.typeError) := by
  refine ⟨?_, ?_, ?_⟩
  · intro s fileName j hj hnull hrate
    constructor
    · unfold structStage
      rw [hj]
      cases j with
      | null => exact absurd rfl hnull
      | bool b => rfl
      | num q => rfl
      | str st => rfl
      | arr xs => rfl
      | obj kvs => rfl
    · show orNullField j (("rate").data) = Json.null
      unfold orNullField
      rw [hrate]
  · intro s fileName hj
    unfold structStage
    rw [hj]
  · intro s fileName hj
    unfold structStage
    rw [hj]

/-- Witness for C6's amended statement: the concrete rate-free object
response parses with a `null` rate, a non-JSON response fails the parse,
and the response `null` takes the TypeError path. -/
theorem c6_structured_shape_witness :
    (structStage c6SampleText none = StructResult.ok (mkStructLoadRecord c6SampleJson none)
      ∧ (mkStructLoadRecord c6SampleJson none).rate = Json.null)
    ∧ structStage (("garbage").data) none = StructResult.parseFailed
    ∧ structStage (("null").data) none = StructResult.typeError :=
  ⟨c6_structured_shape_amended.1 c6SampleText none c6SampleJson rfl
      (fun h => Json.noConfusion h) rfl,
   c6_structured_shape_amended.2.1 (("garbage").data) none rfl,
   c6_structured_shape_amended.2.2 (("null").data) none rfl⟩

/-! ### C10: success response shape -/

/-- A data line for exercising the response shape: miles 5, booked rate 10. -/
def c10Line : List Char := ("LD1,,,,,,,,,,,5,,10,,").data

/-- Two responses differing only in the invoice-email block. -/
def c10Resp1 : List Char := mkResponse c10Line (("a@b.com").data)

/-- Second response with a different invoice email. -/
def c10Resp2 : List Char := mkResponse c10Line (("c@d.com").data)

/-- The success body both responses produce. -/
def c10Body : SuccessBody :=
  ⟨true, mkLoadData ((splitComma c10Line).map trimJS), c10Line, some (("2.00").data)⟩

/-- C10: the success body consists exactly of `success` (the literal
`true`), the record, the raw data line and the rate-per-mile; it is a
function of the data-line match alone, so the invoice email -- although
computed -- appears nowhere in it: two responses differing only in the
invoice-email block yield identical success bodies. -/
theorem c10_response_shape :
    (∀ s t : List Char, findLabelMatch csvLabel s = findLabelMatch csvLabel t →
      ∀ b : SuccessBody, (parseResponse s = ParseResult.ok b ↔ parseResponse t = ParseResult.ok b))
    ∧ (∀ (s : List Char) (b : SuccessBody), parseResponse s = ParseResult.ok b → b.success = true)
    ∧ parseResponse c10Resp1 = parseResponse c10Resp2
    ∧ extractInvoiceEmail c10Resp1 ≠ extractInvoiceEmail c10Resp2
    ∧ parseResponse c10Resp1 = ParseResult.ok c10Body := by
  refine ⟨?_, ?_, by decide, by decide, by decide⟩
  · intro s t hst b
    unfold parseResponse
    rw [hst]
    cases h2 : (findLabelMatch csvLabel t).map trimJS with
    | none => simp
    | some l =>
      by_cases hl : l = [] <;> simp [hl]
  · intro s b h
    unfold parseResponse at h
    split at h
    · exact absurd h (by simp)
    · split at h
      · exact absurd h (by simp)
      · simp only [ParseResult.ok.injEq] at h
        subst h
        rfl

/-- Witness for C10: the shape theorem applied at the two concrete
responses. -/
theorem c10_response_shape_witness :
    (parseResponse c10Resp1 = ParseResult.ok c10Body ↔
      parseResponse c10Resp2 = ParseResult.ok c10Body)
    ∧ c10Body.success = true :=
  ⟨c10_response_shape.1 c10Resp1 c10Resp2 (by decide) c10Body,
   c10_response_shape.2.1 c10Resp1 c10Body c10_response_shape.2.2.2.2⟩

/-! ### List lemmas for the split/trim interplay -/

theorem splitComma_ne_nil (l : List Char) : splitComma l ≠ [] := by
  induction l with
  | nil => simp [splitComma]
  | cons c r ih =>
    unfold splitComma
    by_cases hc : c = ','
    · simp [hc]
    · simp only [hc, if_false]
      cases hs : splitComma r with
      | nil => simp
      | cons f rest => simp

theorem splitComma_no_comma (l : List Char) (h : ',' ∉ l) : splitComma l = [l] := by
  induction l with
  | nil => rfl
  | cons c r ih =>
    have hc : c ≠ ',' := fun e => h (e ▸ List.mem_cons_self c r)
    have hr : ',' ∉ r := fun e => h (List.mem_cons_of_mem c e)
    unfold splitComma
    simp only [hc, if_neg]
    rw [ih hr]
    simp [hc]

theorem splitComma_eq_singleton (l x : List Char) (h : splitComma l = [x]) :
    x = l ∧ ',' ∉ l := by
  induction l generalizing x with
  | nil =>
    have hx : x = [] := by simpa [splitComma] using h.symm
    subst hx
    exact ⟨rfl, by simp⟩
  | cons c r ih =>
    unfold splitComma at h
    by_cases hc : c = ','
    · rw [if_pos hc] at h
      have := splitComma_ne_nil r
      simp at h
      exact absurd h.2 this
    · rw [if_neg hc] at h
      cases hs : splitComma r with
      | nil => exact absurd hs (splitComma_ne_nil r)
      | cons f rest =>
        rw [hs] at h
        simp at h
        obtain ⟨h1, h2⟩ := h
        obtain ⟨hf, hmem⟩ := ih f (by rw [hs, h2])
        constructor
        · rw [← h1, hf]
        · intro hm
          rcases List.mem_cons.mp hm with hm | hm
          · exact hc hm.symm
          · exact hmem hm

theorem comma_mem_of_length16 (l : List Char) (h : (splitComma l).length = 16) :
    ',' ∈ l := by
  by_contra hn
  rw [splitComma_no_comma l hn] at h
  simp at h

theorem mem_dropWhile_of_not (p : Char → Bool) (l : List Char) (c : Char)
    (hm : c ∈ l) (hp : p c = false) : c ∈ l.dropWhile p := by
  induction l with
  | nil => cases hm
  | cons a r ih =>
    rw [List.dropWhile_cons]
    by_cases ha : p a = true
    · simp only [ha, if_true]
      rcases List.mem_cons.mp hm with he | hr
      · rw [he] at hp; rw [hp] at ha; cases ha
      · exact ih hr
    · simp only [ha, if_false]
      exact hm

theorem dropWhile_append_ex (p : Char → Bool) (a b : List Char)
    (h : ∃ x ∈ a, p x = false) :
    List.dropWhile p (a ++ b) = List.dropWhile p a ++ b := by
  induction a with
  | nil =>
    obtain ⟨x, hx, _⟩ := h
    cases hx
  | cons c r ih =>
    rw [List.cons_append, List.dropWhile_cons, List.dropWhile_cons]
    by_cases hc : p c = true
    · simp only [hc, if_true]
      apply ih
      obtain ⟨x, hx, hpx⟩ := h
      rcases List.mem_cons.mp hx with he | hr
      · rw [he] at hpx; rw [hpx] at hc; cases hc
      · exact ⟨x, hr, hpx⟩
    · simp only [hc, if_false]
      rfl

theorem takeWhile_append_nl (u v : List Char) (h : '\n' ∉ u) :
    List.takeWhile (fun d => d ≠ '\n') (u ++ '\n' :: v) = u := by
  induction u with
  | nil => rw [List.nil_append, List.takeWhile_cons_of_neg (by simp)]
  | cons c r ih =>
    have hc : c ≠ '\n' := fun e => h (e ▸ List.mem_cons_self c r)
    have hr : '\n' ∉ r := fun e => h (List.mem_cons_of_mem c e)
    rw [List.cons_append, List.takeWhile_cons_of_pos (by simp [hc]), ih hr]

theorem dropWhile_append_full (p : Char → Bool) (a b : List Char) :
    List.dropWhile p (a ++ b) =
      if List.dropWhile p a = [] then List.dropWhile p b
      else List.dropWhile p a ++ b := by
  induction a with
  | nil => simp
  | cons c r ih =>
    rw [List.cons_append, List.dropWhile_cons, List.dropWhile_cons]
    by_cases hc : p c = true
    · simp only [hc, if_true]
      exact ih
    · simp only [hc, if_false]
      simp

theorem rdropWhile_cons (p : Char → Bool) (c : Char) (r : List Char) :
    List.rdropWhile p (c :: r) =
      if List.rdropWhile p r = [] then (if p c then [] else [c])
      else c :: List.rdropWhile p r := by
  have lhs : List.rdropWhile p (c :: r) =
      (List.dropWhile p (c :: r).reverse).reverse := rfl
  have hrev : List.rdropWhile p r = (List.dropWhile p r.reverse).reverse := rfl
  rw [lhs, hrev, List.reverse_cons, dropWhile_append_full]
  by_cases h : List.dropWhile p r.reverse = []
  · rw [if_pos h, if_pos (by rw [h]; rfl)]
    rw [List.dropWhile_cons]
    by_cases hc : p c = true
    · simp [hc]
    · simp [hc]
  · rw [if_neg h, if_neg (by simp [h])]
    simp

theorem dropWhile_rdropWhile_comm (p : Char → Bool) (l : List Char) :
    List.dropWhile p (List.rdropWhile p l) =
      List.rdropWhile p (List.dropWhile p l) := by
  induction l with
  | nil => rfl
  | cons c r ih =>
    rw [rdropWhile_cons, List.dropWhile_cons]
    cases hc : p c with
    | true =>
      simp only [hc, eq_self_iff_true, if_true]
      by_cases hr : List.rdropWhile p r = []
      · simp only [hr, eq_self_iff_true, if_true]
        rw [List.dropWhile_nil]
        have hall : ∀ x ∈ r, p x = true := List.rdropWhile_eq_nil_iff.mp hr
        rw [List.dropWhile_eq_nil_iff.mpr hall, List.rdropWhile_nil]
      · simp only [hr, if_false]
        rw [List.dropWhile_cons]
        simp only [hc, eq_self_iff_true, if_true]
        exact ih
    | false =>
      simp only [hc, Bool.false_eq_true, if_false]
      rw [rdropWhile_cons]
      simp only [hc, Bool.false_eq_true, if_false]
      by_cases hr : List.rdropWhile p r = []
      · simp only [hr, eq_self_iff_true, if_true]
        rw [List.dropWhile_cons]
        simp only [hc, Bool.false_eq_true, if_false]
      · simp only [hr, if_false]
        rw [List.dropWhile_cons]
        simp only [hc, Bool.false_eq_true, if_false]

theorem trimJS_dropWhile (l : List Char) :
    trimJS (l.dropWhile isWsJS) = trimJS l := by
  unfold trimJS
  rw [List.dropWhile_idempotent]

theorem trimJS_rdropWhile (l : List Char) :
    trimJS (List.rdropWhile isWsJS l) = trimJS l := by
  unfold trimJS
  rw [dropWhile_rdropWhile_comm, List.rdropWhile_idempotent]

theorem ws_ne_comma (c : Char) (h : isWsJS c = true) : c ≠ ',' := by
  intro e
  subst e
  exact absurd h (by decide)

theorem splitComma_cons_comma (u : List Char) :
    splitComma (',' :: u) = [] :: splitComma u := rfl

theorem splitComma_cons_ne (c : Char) (u : List Char) (hc : c ≠ ',')
    (f : List Char) (rest : List (List Char)) (hs : splitComma u = f :: rest) :
    splitComma (c :: u) = (c :: f) :: rest := by
  have hd : splitComma (c :: u) =
      if c = ',' then [] :: splitComma u
      else match splitComma u with
        | [] => [[c]]
        | f :: rest => (c :: f) :: rest := rfl
  rw [hd, if_neg hc, hs]

theorem modLastF_cons_ne (f : List Char → List Char) (x : List Char)
    (xs : List (List Char)) (h : xs ≠ []) :
    modLastF f (x :: xs) = x :: modLastF f xs := by
  cases xs with
  | nil => exact absurd rfl h
  | cons y ys => rfl

theorem modHeadF_id_of_not_ws (c : Char) (r : List Char) (hc : isWsJS c = false) :
    modHeadF (List.dropWhile isWsJS) (splitComma (c :: r)) = splitComma (c :: r) := by
  by_cases hcc : c = ','
  · subst hcc
    rw [splitComma_cons_comma]
    rfl
  · cases hs : splitComma r with
    | nil => exact absurd hs (splitComma_ne_nil r)
    | cons f rest =>
      rw [splitComma_cons_ne c r hcc f rest hs]
      show List.dropWhile isWsJS (c :: f) :: rest = (c :: f) :: rest
      rw [List.dropWhile_cons]
      simp [hc]

theorem splitComma_dropWhile (l : List Char) :
    splitComma (l.dropWhile isWsJS) = modHeadF (List.dropWhile isWsJS) (splitComma l) := by
  induction l with
  | nil => rfl
  | cons c r ih =>
    rw [List.dropWhile_cons]
    by_cases hc : isWsJS c = true
    · rw [if_pos hc, ih]
      have hcc : c ≠ ',' := ws_ne_comma c hc
      cases hs : splitComma r with
      | nil => exact absurd hs (splitComma_ne_nil r)
      | cons f rest =>
        rw [splitComma_cons_ne c r hcc f rest hs]
        show List.dropWhile isWsJS f :: rest = List.dropWhile isWsJS (c :: f) :: rest
        rw [List.dropWhile_cons, if_pos hc]
    · have hcf : isWsJS c = false := by revert hc; cases isWsJS c <;> simp
      rw [if_neg hc]
      exact (modHeadF_id_of_not_ws c r hcf).symm

theorem splitComma_rdropWhile (l : List Char) :
    splitComma (List.rdropWhile isWsJS l) =
      modLastF (List.rdropWhile isWsJS) (splitComma l) := by
  induction l with
  | nil => rfl
  | cons c r ih =>
    by_cases hr : List.rdropWhile isWsJS r = []
    · have hall : ∀ x ∈ r, isWsJS x = true := List.rdropWhile_eq_nil_iff.mp hr
      have hrnc : ',' ∉ r := fun hm => absurd (hall ',' hm) (by decide)
      by_cases hc : isWsJS c = true
      · have hcc : c ≠ ',' := ws_ne_comma c hc
        have hnc : ',' ∉ c :: r := by
          intro hm
          rcases List.mem_cons.mp hm with he | hm2
          · exact hcc he.symm
          · exact hrnc hm2
        rw [rdropWhile_cons, if_pos hr, if_pos hc, splitComma_no_comma (c :: r) hnc]
        unfold modLastF
        rw [rdropWhile_cons, if_pos hr, if_pos hc]
        rfl
      · by_cases hcc : c = ','
        · subst hcc
          rw [rdropWhile_cons, if_pos hr, if_neg hc, splitComma_cons_comma,
            splitComma_cons_comma, splitComma_no_comma r hrnc]
          have hm : modLastF (List.rdropWhile isWsJS) ([] :: [r]) =
              [] :: [List.rdropWhile isWsJS r] := rfl
          rw [hm, hr]
          rfl
        · have hnc : ',' ∉ c :: r := by
            intro hm
            rcases List.mem_cons.mp hm with he | hm2
            · exact hcc he.symm
            · exact hrnc hm2
          rw [rdropWhile_cons, if_pos hr, if_neg hc, splitComma_no_comma (c :: r) hnc]
          have hm : modLastF (List.rdropWhile isWsJS) [c :: r] =
              [List.rdropWhile isWsJS (c :: r)] := rfl
          rw [hm, rdropWhile_cons, if_pos hr, if_neg hc]
          exact splitComma_no_comma [c] (by intro hm2; exact hcc (List.mem_singleton.mp hm2).symm)
    · rw [rdropWhile_cons, if_neg hr]
      by_cases hcc : c = ','
      · subst hcc
        rw [splitComma_cons_comma, splitComma_cons_comma, ih,
          modLastF_cons_ne _ _ _ (splitComma_ne_nil r)]
      · cases hs0 : splitComma r with
        | nil => exact absurd hs0 (splitComma_ne_nil r)
        | cons f rest =>
          have ih2 : splitComma (List.rdropWhile isWsJS r) =
              modLastF (List.rdropWhile isWsJS) (f :: rest) := by rw [ih, hs0]
          rw [splitComma_cons_ne c r hcc f rest hs0]
          cases rest with
          | nil =>
            obtain ⟨hf, hnr⟩ := splitComma_eq_singleton r f hs0
            subst hf
            have ih3 : splitComma (List.rdropWhile isWsJS f) =
                [List.rdropWhile isWsJS f] := by rw [ih2]; rfl
            rw [splitComma_cons_ne c _ hcc _ _ ih3]
            have hm : modLastF (List.rdropWhile isWsJS) [c :: f] =
                [List.rdropWhile isWsJS (c :: f)] := rfl
            rw [hm, rdropWhile_cons, if_neg hr]
          | cons g rest3 =>
            have hmem : modLastF (List.rdropWhile isWsJS) (f :: g :: rest3) =
                f :: modLastF (List.rdropWhile isWsJS) (g :: rest3) := rfl
            rw [hmem] at ih2
            rw [splitComma_cons_ne c _ hcc _ _ ih2]
            rfl

theorem map_trimJS_modHeadF (xs : List (List Char)) :
    (modHeadF (List.dropWhile isWsJS) xs).map trimJS = xs.map trimJS := by
  cases xs with
  | nil => rfl
  | cons x xs =>
    unfold modHeadF
    rw [List.map_cons, List.map_cons, trimJS_dropWhile]

theorem map_trimJS_modLastF (xs : List (List Char)) :
    (modLastF (List.rdropWhile isWsJS) xs).map trimJS = xs.map trimJS := by
  induction xs with
  | nil => rfl
  | cons x xs ih =>
    cases xs with
    | nil =>
      have hm : modLastF (List.rdropWhile isWsJS) [x] = [List.rdropWhile isWsJS x] := rfl
      rw [hm, List.map_cons, List.map_cons, trimJS_rdropWhile]
    | cons y ys =>
      have hm : modLastF (List.rdropWhile isWsJS) (x :: y :: ys) =
          x :: modLastF (List.rdropWhile isWsJS) (y :: ys) := rfl
      rw [hm, List.map_cons, List.map_cons, ih]

theorem fields_trim_invariant (l : List Char) :
    (splitComma (trimJS l)).map trimJS = (splitComma l).map trimJS := by
  have h1 : trimJS l = List.rdropWhile isWsJS (l.dropWhile isWsJS) := rfl
  rw [h1, splitComma_rdropWhile, splitComma_dropWhile, map_trimJS_modLastF,
    map_trimJS_modHeadF]

/-! ### Regex-model lemmas -/

theorem mem_of_mem_dropWhile (p : Char → Bool) (l : List Char) (c : Char)
    (h : c ∈ List.dropWhile p l) : c ∈ l := by
  induction l with
  | nil => cases h
  | cons a r ih =>
    rw [List.dropWhile_cons] at h
    by_cases ha : p a = true
    · rw [if_pos ha] at h
      exact List.mem_cons_of_mem a (ih h)
    · rw [if_neg ha] at h
      exact h

theorem mem_rdropWhile_of_not (p : Char → Bool) (l : List Char) (c : Char)
    (hm : c ∈ l) (hp : p c = false) : c ∈ List.rdropWhile p l := by
  have : c ∈ (List.dropWhile p l.reverse).reverse := by
    rw [List.mem_reverse]
    exact mem_dropWhile_of_not p l.reverse c (List.mem_reverse.mpr hm) hp
  exact this

theorem tailMatch_of_nonws (t : List Char) (h : ∃ c ∈ t, isWsJS c = false) :
    tailMatch t = some ((t.dropWhile isWsJS).takeWhile (fun d => d ≠ '\n')) := by
  induction t with
  | nil =>
    obtain ⟨c, hc, _⟩ := h
    cases hc
  | cons a r ih =>
    have hd : tailMatch (a :: r) =
        if isWsJS a then
          (match tailMatch r with
            | some cap => some cap
            | none => if a = '\n' then dotPlusAt r else dotPlusAt (a :: r))
        else dotPlusAt (a :: r) := rfl
    by_cases ha : isWsJS a = true
    · have hr : ∃ c ∈ r, isWsJS c = false := by
        obtain ⟨c, hc, hpc⟩ := h
        rcases List.mem_cons.mp hc with he | hm
        · rw [he] at hpc
          rw [hpc] at ha
          cases ha
        · exact ⟨c, hm, hpc⟩
      rw [hd, if_pos ha, ih hr]
      show some ((r.dropWhile isWsJS).takeWhile _) =
        some (((a :: r).dropWhile isWsJS).takeWhile _)
      rw [List.dropWhile_cons, if_pos ha]
    · have haf : isWsJS a = false := by revert ha; cases isWsJS a <;> simp
      have han : a ≠ '\n' := by
        intro e
        rw [e] at haf
        exact absurd haf (by decide)
      rw [hd, if_neg ha]
      show (if a = '\n' then none else some (a :: r.takeWhile (fun d => d ≠ '\n'))) = _
      rw [if_neg han, List.dropWhile_cons, if_neg ha,
        List.takeWhile_cons_of_pos (by simp [han])]

theorem parseResponse_some_trim (s l : List Char)
    (h : (findLabelMatch csvLabel s).map trimJS = some l) (hne : l ≠ []) :
    parseResponse s = ParseResult.ok
      ⟨true, mkLoadData ((splitComma l).map trimJS), l,
        calcRpm (mkLoadData ((splitComma l).map trimJS)).miles
          (mkLoadData ((splitComma l).map trimJS)).booked_rate⟩ := by
  unfold parseResponse
  rw [h]
  show (if l = [] then ParseResult.malformed s
    else
      let fields := (splitComma l).map trimJS
      let d := mkLoadData fields
      ParseResult.ok ⟨true, d, l, calcRpm d.miles d.booked_rate⟩) = _
  rw [if_neg hne]

/-! ### C1: sixteen-value data lines -/

/-- C1: for every delimited-text response whose data line splits into
exactly sixteen comma-separated values, parsing succeeds (no
malformed-extraction failure) and the record holds exactly the sixteen
positional values modulo normalization (per-field trimming, with the three
numeric positions going through `parseFloat(...) || 0`); and on the
concrete response of spec §8.6 the result is the expected record with
id `LD100`, equipment `R`, miles 800, posted rate 0, booked rate 2000,
rpm `2.50`, and invoice email `billing@acme.com`. -/
theorem c1_sixteen_value_parse :
    (∀ line email : List Char, '\n' ∉ line → (splitComma line).length = 16 →
      parseResponse (mkResponse line email) = ParseResult.ok
        ⟨true, mkLoadData ((splitComma line).map trimJS), trimJS line,
          calcRpm (mkLoadData ((splitComma line).map trimJS)).miles
            (mkLoadData ((splitComma line).map trimJS)).booked_rate⟩)
    ∧ parseResponse sampleResponse =
        ParseResult.ok ⟨true, sampleRecord, sampleLine, some (("2.50").data)⟩
    ∧ extractInvoiceEmail sampleResponse = some (("billing@acme.com").data) := by
  refine ⟨?_, by decide, by decide⟩
  intro line email hnl hlen
  have hcomma : ',' ∈ line := comma_mem_of_length16 line hlen
  have ht : tailMatch ('\n' :: (line ++ ((("\n\nINVOICE EMAIL:\n").data) ++ email))) =
      some (line.dropWhile isWsJS) := by
    have hex : ∃ c ∈ '\n' :: (line ++ ((("\n\nINVOICE EMAIL:\n").data) ++ email)),
        isWsJS c = false :=
      ⟨',', List.mem_cons_of_mem '\n' (List.mem_append_left _ hcomma), by decide⟩
    rw [tailMatch_of_nonws _ hex]
    congr 1
    rw [List.dropWhile_cons, if_pos (by decide : isWsJS '\n' = true),
      dropWhile_append_ex isWsJS line _ ⟨',', hcomma, by decide⟩]
    have hres2 : (("\n\nINVOICE EMAIL:\n").data) ++ email =
        '\n' :: ((("\nINVOICE EMAIL:\n").data) ++ email) := rfl
    rw [hres2]
    exact takeWhile_append_nl _ _
      (fun hm => hnl (mem_of_mem_dropWhile isWsJS line '\n' hm))
  have h1 : findLabelMatch csvLabel (mkResponse line email) =
      some (line.dropWhile isWsJS) := by
    have hd : findLabelMatch csvLabel (mkResponse line email) =
        (match tailMatch ('\n' :: (line ++ ((("\n\nINVOICE EMAIL:\n").data) ++ email))) with
          | some cap => some cap
          | none => findLabelMatch csvLabel
              ((("SV LINE:").data) ++ (('\n' :: line) ++ ((("\n\nINVOICE EMAIL:\n").data) ++ email)))) := rfl
    rw [hd, ht]
  have hmap : (findLabelMatch csvLabel (mkResponse line email)).map trimJS =
      some (trimJS line) := by
    rw [h1]
    show some (trimJS (line.dropWhile isWsJS)) = some (trimJS line)
    rw [trimJS_dropWhile]
  have hne : trimJS line ≠ [] := by
    intro he
    have hmem : ',' ∈ trimJS line :=
      mem_rdropWhile_of_not isWsJS _ ','
        (mem_dropWhile_of_not isWsJS line ',' hcomma (by decide)) (by decide)
    rw [he] at hmem
    cases hmem
  have hp := parseResponse_some_trim (mkResponse line email) (trimJS line) hmap hne
  rw [fields_trim_invariant line] at hp
  exact hp

/-- Witness for C1's universal part at a concrete sixteen-value line. -/
theorem c1_sixteen_value_parse_witness :
    parseResponse (mkResponse (("a,b,c,d,e,f,g,h,i,j,k,1,2,3,n,o").data) (("x@y.z").data)) =
      ParseResult.ok
        ⟨true, mkLoadData ((splitComma (("a,b,c,d,e,f,g,h,i,j,k,1,2,3,n,o").data)).map trimJS),
          trimJS (("a,b,c,d,e,f,g,h,i,j,k,1,2,3,n,o").data),
          calcRpm
            (mkLoadData ((splitComma (("a,b,c,d,e,f,g,h,i,j,k,1,2,3,n,o").data)).map trimJS)).miles
            (mkLoadData ((splitComma (("a,b,c,d,e,f,g,h,i,j,k,1,2,3,n,o").data)).map trimJS)).booked_rate⟩ :=
  c1_sixteen_value_parse.1 (("a,b,c,d,e,f,g,h,i,j,k,1,2,3,n,o").data) (("x@y.z").data)
    (by decide) (by decide)

/-! ### C8: label matching -/

theorem isWsJS_lowerChar (c : Char) : isWsJS (lowerChar c) = isWsJS c := by
  unfold lowerChar
  split <;> first | decide | rfl

theorem lowerChar_eq_nl_iff (c : Char) : lowerChar c = '\n' ↔ c = '\n' := by
  unfold lowerChar
  split <;> first | decide | exact Iff.rfl

theorem lowerChar_eq_colon (c : Char) (h : lowerChar c = ':') : c = ':' := by
  revert h
  unfold lowerChar
  split <;> first | decide | exact id

theorem nl_congr (a b : Char) (h : lowerChar a = lowerChar b) :
    a = '\n' ↔ b = '\n' := by
  constructor
  · intro e
    subst e
    exact (lowerChar_eq_nl_iff b).mp (h.symm.trans (by decide))
  · intro e
    subst e
    exact (lowerChar_eq_nl_iff a).mp (h.trans (by decide))

theorem startsWithCI_congr (p : List Char) : ∀ s t : List Char,
    s.map lowerChar = t.map lowerChar → startsWithCI p s = startsWithCI p t := by
  induction p with
  | nil => intro s t h; rfl
  | cons q ps ih =>
    intro s t h
    cases s with
    | nil =>
      cases t with
      | nil => rfl
      | cons b bs => simp at h
    | cons a as =>
      cases t with
      | nil => simp at h
      | cons b bs =>
        simp only [List.map_cons, List.cons.injEq] at h
        obtain ⟨h1, h2⟩ := h
        show (if lowerChar a = q then startsWithCI ps as else false) =
          (if lowerChar b = q then startsWithCI ps bs else false)
        rw [h1, ih as bs h2]

theorem dotPlusAt_isSome_congr (s t : List Char)
    (h : s.map lowerChar = t.map lowerChar) :
    (dotPlusAt s).isSome = (dotPlusAt t).isSome := by
  cases s with
  | nil =>
    cases t with
    | nil => rfl
    | cons b bs => simp at h
  | cons a as =>
    cases t with
    | nil => simp at h
    | cons b bs =>
      simp only [List.map_cons, List.cons.injEq] at h
      have hnl := nl_congr a b h.1
      show (if a = '\n' then none
          else some (a :: as.takeWhile (fun d => d ≠ '\n'))).isSome =
        (if b = '\n' then none
          else some (b :: bs.takeWhile (fun d => d ≠ '\n'))).isSome
      by_cases ha : a = '\n'
      · rw [if_pos ha, if_pos (hnl.mp ha)]
      · rw [if_neg ha, if_neg (fun hb => ha (hnl.mpr hb))]
        rfl

theorem tailMatch_isSome_congr : ∀ s t : List Char,
    s.map lowerChar = t.map lowerChar →
    (tailMatch s).isSome = (tailMatch t).isSome := by
  intro s
  induction s with
  | nil =>
    intro t h
    cases t with
    | nil => rfl
    | cons b bs => simp at h
  | cons a as ih =>
    intro t h
    cases t with
    | nil => simp at h
    | cons b bs =>
      simp only [List.map_cons, List.cons.injEq] at h
      obtain ⟨h1, h2⟩ := h
      have hws : isWsJS a = isWsJS b := by
        rw [← isWsJS_lowerChar a, h1, isWsJS_lowerChar b]
      have hnl := nl_congr a b h1
      have hda : tailMatch (a :: as) =
          if isWsJS a then
            (match tailMatch as with
              | some cap => some cap
              | none => if a = '\n' then dotPlusAt as else dotPlusAt (a :: as))
          else dotPlusAt (a :: as) := rfl
      have hdb : tailMatch (b :: bs) =
          if isWsJS b then
            (match tailMatch bs with
              | some cap => some cap
              | none => if b = '\n' then dotPlusAt bs else dotPlusAt (b :: bs))
          else dotPlusAt (b :: bs) := rfl
      rw [hda, hdb]
      have hmapcons : (a :: as).map lowerChar = (b :: bs).map lowerChar := by
        simp [h1, h2]
      by_cases hw : isWsJS a = true
      · rw [if_pos hw, if_pos (hws.symm.trans hw)]
        have hih := ih bs h2
        cases hta : tailMatch as with
        | some c1 =>
          cases htb : tailMatch bs with
          | some c2 => rfl
          | none =>
            rw [hta, htb] at hih
            simp at hih
        | none =>
          cases htb : tailMatch bs with
          | some c2 =>
            rw [hta, htb] at hih
            simp at hih
          | none =>
            show (if a = '\n' then dotPlusAt as else dotPlusAt (a :: as)).isSome =
              (if b = '\n' then dotPlusAt bs else dotPlusAt (b :: bs)).isSome
            by_cases ha : a = '\n'
            · rw [if_pos ha, if_pos (hnl.mp ha)]
              exact dotPlusAt_isSome_congr as bs h2
            · rw [if_neg ha, if_neg (fun hb => ha (hnl.mpr hb))]
              exact dotPlusAt_isSome_congr (a :: as) (b :: bs) hmapcons
      · rw [if_neg hw, if_neg (fun hb => hw (hws.trans hb))]
        exact dotPlusAt_isSome_congr (a :: as) (b :: bs) hmapcons

theorem findLabelMatch_isSome_congr (label : List Char) : ∀ s t : List Char,
    s.map lowerChar = t.map lowerChar →
    (findLabelMatch label s).isSome = (findLabelMatch label t).isSome := by
  intro s
  induction s with
  | nil =>
    intro t h
    cases t with
    | nil => rfl
    | cons b bs => simp at h
  | cons a as ih =>
    intro t h
    cases t with
    | nil => simp at h
    | cons b bs =>
      have hsw : startsWithCI label (a :: as) = startsWithCI label (b :: bs) :=
        startsWithCI_congr label _ _ h
      have hda : findLabelMatch label (a :: as) =
          if startsWithCI label (a :: as) then
            (match tailMatch ((a :: as).drop label.length) with
              | some cap => some cap
              | none => findLabelMatch label as)
          else findLabelMatch label as := rfl
      have hdb : findLabelMatch label (b :: bs) =
          if startsWithCI label (b :: bs) then
            (match tailMatch ((b :: bs).drop label.length) with
              | some cap => some cap
              | none => findLabelMatch label bs)
          else findLabelMatch label bs := rfl
      rw [hda, hdb]
      have h12 := h
      simp only [List.map_cons, List.cons.injEq] at h12
      obtain ⟨h1, h2⟩ := h12
      by_cases hs : startsWithCI label (a :: as) = true
      · rw [if_pos hs, if_pos (hsw.symm.trans hs)]
        have hdropmap : ((a :: as).drop label.length).map lowerChar =
            ((b :: bs).drop label.length).map lowerChar := by
          rw [List.map_drop, List.map_drop, h]
        have hts := tailMatch_isSome_congr _ _ hdropmap
        cases hta : tailMatch ((a :: as).drop label.length) with
        | some c1 =>
          cases htb : tailMatch ((b :: bs).drop label.length) with
          | some c2 => rfl
          | none =>
            rw [hta, htb] at hts
            simp at hts
        | none =>
          cases htb : tailMatch ((b :: bs).drop label.length) with
          | some c2 =>
            rw [hta, htb] at hts
            simp at hts
          | none => exact ih bs h2
      · rw [if_neg hs, if_neg (fun hb => hs (hsw.trans hb))]
        exact ih bs h2

theorem startsWithCI_get (p : List Char) : ∀ (s : List Char) (i : ℕ),
    startsWithCI p s = true → i < p.length →
    ∃ c, s.get? i = some c ∧ p.get? i = some (lowerChar c) := by
  induction p with
  | nil =>
    intro s i h hi
    exact absurd hi (by simp)
  | cons q ps ih =>
    intro s i h hi
    cases s with
    | nil => exact Bool.noConfusion h
    | cons c cs =>
      have hd : startsWithCI (q :: ps) (c :: cs) =
          if lowerChar c = q then startsWithCI ps cs else false := rfl
      rw [hd] at h
      by_cases hc : lowerChar c = q
      · rw [if_pos hc] at h
        cases i with
        | zero => exact ⟨c, rfl, by rw [← hc]; rfl⟩
        | succ j =>
          have hj : j < ps.length := by simpa using hi
          obtain ⟨c2, hc2, hp2⟩ := ih cs j h hj
          exact ⟨c2, by simpa using hc2, by simpa using hp2⟩
      · rw [if_neg hc] at h
        exact Bool.noConfusion h

theorem find_skip_colon_free : ∀ (pre t : List Char), ':' ∉ pre →
    findLabelMatch csvLabel (pre ++ ((("CSV LINE:").data) ++ t)) =
      findLabelMatch csvLabel ((("CSV LINE:").data) ++ t) := by
  intro pre
  induction pre with
  | nil =>
    intro t h
    rfl
  | cons c pre2 ih =>
    intro t h
    have hnotin : ':' ∉ pre2 := fun hm => h (List.mem_cons_of_mem c hm)
    have hcne : c ≠ ':' := fun e => h (e ▸ List.mem_cons_self c pre2)
    have hsw : startsWithCI csvLabel
        (c :: (pre2 ++ ((("CSV LINE:").data) ++ t))) = false := by
      by_cases hx : startsWithCI csvLabel (c :: (pre2 ++ ((("CSV LINE:").data) ++ t))) = true
      · obtain ⟨ch, hch, hpc⟩ := startsWithCI_get csvLabel _ 8 hx (by decide)
        have hget : csvLabel.get? 8 = some ':' := by decide
        rw [hget] at hpc
        have hcolon : lowerChar ch = ':' := (Option.some.inj hpc).symm
        have hch2 : ch = ':' := lowerChar_eq_colon ch hcolon
        subst hch2
        exfalso
        by_cases hlen : 8 < (c :: pre2).length
        · have heq : (c :: (pre2 ++ ((("CSV LINE:").data) ++ t))).get? 8 =
              (c :: pre2).get? 8 := by
            rw [show c :: (pre2 ++ ((("CSV LINE:").data) ++ t)) =
              (c :: pre2) ++ ((("CSV LINE:").data) ++ t) from rfl]
            exact List.get?_append hlen
          rw [heq] at hch
          have hmem : ':' ∈ c :: pre2 := List.get?_mem hch
          rcases List.mem_cons.mp hmem with he | hm
          · exact hcne he.symm
          · exact hnotin hm
        · have hle : (c :: pre2).length ≤ 8 := by omega
          have heq : (c :: (pre2 ++ ((("CSV LINE:").data) ++ t))).get? 8 =
              ((("CSV LINE:").data) ++ t).get? (8 - (c :: pre2).length) := by
            rw [show c :: (pre2 ++ ((("CSV LINE:").data) ++ t)) =
              (c :: pre2) ++ ((("CSV LINE:").data) ++ t) from rfl]
            exact List.get?_append_right hle
          rw [heq] at hch
          have hlt9 : 8 - (c :: pre2).length < (("CSV LINE:").data).length := by
            have h9 : (("CSV LINE:").data).length = 9 := by decide
            omega
          rw [List.get?_append hlt9] at hch
          have hone : 1 ≤ (c :: pre2).length := by simp
          generalize hg : 8 - (c :: pre2).length = j at hch
          have hj7 : j ≤ 7 := by omega
          interval_cases j <;> exact absurd hch (by decide)
      · revert hx
        cases startsWithCI csvLabel (c :: (pre2 ++ ((("CSV LINE:").data) ++ t))) <;> simp
    have hd : findLabelMatch csvLabel ((c :: pre2) ++ ((("CSV LINE:").data) ++ t)) =
        if startsWithCI csvLabel (c :: (pre2 ++ ((("CSV LINE:").data) ++ t))) then
          (match tailMatch (((c :: pre2) ++ ((("CSV LINE:").data) ++ t)).drop csvLabel.length) with
            | some cap => some cap
            | none => findLabelMatch csvLabel (pre2 ++ ((("CSV LINE:").data) ++ t)))
        else findLabelMatch csvLabel (pre2 ++ ((("CSV LINE:").data) ++ t)) := rfl
    rw [hd, hsw]
    simp only [Bool.false_eq_true, if_false]
    exact ih t hnotin

/-- A response in which the data-line label occurs only in the middle of a
line of prose (and in mixed case). -/
def c8MidLineText : List Char := ("Note that the cSV liNE: a,b").data

/-- C8 as stated is false on the code: the regex has no anchor, so a label
occurrence in the middle of other text on a line is recognized all the
same, and this mid-line mixed-case response parses successfully. -/
theorem c8_unanchored_counterexample :
    parseResponse c8MidLineText = ParseResult.ok
      ⟨true, mkLoadData ((splitComma (("a,b").data)).map trimJS), ("a,b").data,
        calcRpm (mkLoadData ((splitComma (("a,b").data)).map trimJS)).miles
          (mkLoadData ((splitComma (("a,b").data)).map trimJS)).booked_rate⟩ := by
  decide

/-- C8 amended: the label match is case-insensitive (whether a match exists
depends only on the lower-cased text), but it is not anchored: the label is
recognized at any position, and a colon-free prefix -- of any shape,
mid-line included -- is simply scanned over. -/
theorem c8_label_matching_amended :
    (∀ s t : List Char, s.map lowerChar = t.map lowerChar →
      (findLabelMatch csvLabel s).isSome = (findLabelMatch csvLabel t).isSome)
    ∧ (∀ pre t : List Char, ':' ∉ pre →
      findLabelMatch csvLabel (pre ++ ((("CSV LINE:").data) ++ t)) =
        findLabelMatch csvLabel ((("CSV LINE:").data) ++ t)) :=
  ⟨findLabelMatch_isSome_congr csvLabel, find_skip_colon_free⟩

/-- Witness for C8's amended statement at concrete strings. -/
theorem c8_label_matching_witness :
    (findLabelMatch csvLabel (("CSV LINE: x,y").data)).isSome =
      (findLabelMatch csvLabel (("csv line: x,y").data)).isSome
    ∧ findLabelMatch csvLabel ((("Intro ").data) ++ ((("CSV LINE:").data) ++ (("\nL1,2").data))) =
        findLabelMatch csvLabel ((("CSV LINE:").data) ++ (("\nL1,2").data)) :=
  ⟨c8_label_matching_amended.1 _ _ (by decide),
   c8_label_matching_amended.2 _ _ (by decide)⟩
